import Mathlib

/-!
Verification model of the genezio-rag repository.

Shallow embedding of:
- src/hybrid_retrieval.py : HybridSearch.query_hybrid_search and the vector-store
  (qdrant) query it issues: two prefetch sub-queries fused by Reciprocal Rank
  Fusion, with an optional metadata pre-filter.
- src/main.py : DocumentStats.get_indexed_documents, DocumentStats.search_documents
  and the page-label sort.
- src/main_fastapi.py : the POST /index/ handler and GET /health/.
- indexing.py (QdrantIndexer.index_documents) is not part of the sources; it is
  modelled from the specification, as marked on the definition.

Python strings are modelled through their character lists, exceptions through
Except, and the real-valued similarity scores through explicit nonnegative
fractions over Nat (kernel-computable), with bridge lemmas into Rat.
-/

deriving instance DecidableEq for Except

/-- Python exception values that the modelled code can raise. -/
inductive PyErr where
  | keyError
  | exc (msg : String)
deriving DecidableEq

/-- Python str.lower, on the character list (ASCII case folding). -/
def pyLower (s : String) : String := ⟨s.data.map Char.toLower⟩

/-- Python str.endswith, on the character lists. -/
def pyEndsWith (s suf : String) : Bool := suf.data.isSuffixOf s.data

/-- Python str.isdigit, restricted to the ASCII digits that the page labels use:
nonempty and made of digit characters only. -/
def pyIsDigit (s : String) : Bool := !s.data.isEmpty && s.data.all Char.isDigit

/-- Python int(s) for a digit string: decimal value of the digits. -/
def pyInt (s : String) : ℕ := s.data.foldl (fun n c => 10 * n + (c.toNat - 48)) 0

/-- The text preview built by DocumentStats.get_indexed_documents
(src/main.py lines 68-71): payload text truncated to 200 characters with an
ellipsis appended, or the full text when it has at most 200 characters. -/
def preview (t : String) : String :=
  if 200 < t.length then (⟨t.data.take 200⟩ : String) ++ "..." else t

/-- A nonnegative similarity or fusion score, kept as an explicit fraction
num/den over Nat so that every comparison is kernel-computable.
Interpreted in Rat by Score.toRat; bridge lemmas below show that leB and add
agree with the rational order and sum whenever the denominators are positive. -/
structure Score where
  num : ℕ
  den : ℕ
deriving DecidableEq

/-- Order on scores: num0/den0 is at most num1/den1, by cross multiplication. -/
def Score.leB (a b : Score) : Bool := a.num * b.den ≤ b.num * a.den

/-- Sum of two scores as fractions. -/
def Score.add (a b : Score) : Score := ⟨a.num * b.den + b.num * a.den, a.den * b.den⟩

/-- The rational value of a score. -/
def Score.toRat (a : Score) : ℚ := (a.num : ℚ) / (a.den : ℚ)

/-- The zero score. -/
def Score.zero : Score := ⟨0, 1⟩

/-- The reciprocal 1/n. -/
def Score.recip (n : ℕ) : Score := ⟨1, n⟩

/-- Sum of a list of scores. -/
def Score.sumL (l : List Score) : Score := l.foldl Score.add Score.zero

/-- Stable insertion of x into l: x is placed after every element y with
le y x, so elements comparing equal keep their original relative order.
This is the ordering behaviour of Python sorted (a stable sort). -/
def insertLe (le : α → α → Bool) (x : α) : List α → List α
  | [] => [x]
  | y :: ys => if le y x then y :: insertLe le x ys else x :: y :: ys

/-- Tail of the stable insertion sort: fold the remaining input into the
already sorted accumulator. -/
def insSortGo (le : α → α → Bool) (acc : List α) : List α → List α
  | [] => acc
  | x :: xs => insSortGo le (insertLe le x acc) xs

/-- Stable sort by the boolean comparator le, processing the input left to
right. Models Python sorted and the order in which the vector store returns
ranked candidates. -/
def insSort (le : α → α → Bool) (l : List α) : List α := insSortGo le [] l

/-- Deduplication keeping the first occurrence of each element. -/
def dedupKeepFirst [DecidableEq α] (l : List α) : List α :=
  l.foldl (fun acc x => if x ∈ acc then acc else acc ++ [x]) []

/-- The payload stored with each indexed point: the chunk metadata keys written
by the indexing pipeline plus the chunk text. Every field is optional, as a
Python dict key may be absent. -/
structure Payload where
  file_name : Option String
  file_path : Option String
  file_type : Option String
  file_size : Option String
  creation_date : Option String
  last_modified_date : Option String
  page_label : Option String
  text : Option String
deriving DecidableEq

/-- Python payload.get(key) for the modelled keys. -/
def Payload.get (p : Payload) (key : String) : Option String :=
  match key with
  | "file_name" => p.file_name
  | "file_path" => p.file_path
  | "file_type" => p.file_type
  | "file_size" => p.file_size
  | "creation_date" => p.creation_date
  | "last_modified_date" => p.last_modified_date
  | "page_label" => p.page_label
  | "text" => p.text
  | _ => none

/-- One stored record of the vector store: identifier plus payload. The two
vector fields are not stored here; similarity is modelled by the score
functions passed to the query model. -/
structure Point where
  id : ℕ
  payload : Payload
deriving DecidableEq

/-- A structured metadata filter: a conjunction of field equality conditions,
the shape used by the repository (for example file_name = "A.pdf"). -/
structure MetaFilter where
  must : List (String × String)
deriving DecidableEq

/-- A payload satisfies the filter when every required field equality holds;
the absent filter accepts everything. -/
def matchesFilter (mf : Option MetaFilter) (p : Payload) : Bool :=
  match mf with
  | none => true
  | some f => f.must.all (fun kv => decide (p.get kv.1 = some kv.2))

/-- One prefetch sub-query of a fused query: the vector field it searches,
the query text standing for its embedded query vector (embedding is
deterministic), and the per-prefetch candidate limit. -/
structure Prefetch where
  vecField : String
  qtext : String
  limit : ℕ
deriving DecidableEq

/-- The fused query sent by query_points: the prefetch sub-queries, the
optional metadata filter, and the top level result limit. -/
structure QdrantQuery where
  prefetch : List Prefetch
  queryFilter : Option MetaFilter
  limit : ℕ

/-- The qdrant client default for the top level limit parameter of
query_points; src/hybrid_retrieval.py does not pass a top level limit, so this
default applies to the fused result list. -/
def qdrantDefaultLimit : ℕ := 10

/-- Descending comparator induced by a score function: a comes before b when
the score of b is at most the score of a. -/
def scoreDescLe (f : α → Score) : α → α → Bool := fun a b => Score.leB (f b) (f a)

/-- Reciprocal Rank Fusion score of a candidate point: the sum, over every
sub-ranking in which the point appears, of 1 / (rank + k), ranks counted from
zero and k the method constant of the store. A point absent from a sub-ranking
contributes zero from it. -/
def rrfScore (k : ℕ) (rankings : List (List Point)) (p : Point) : Score :=
  Score.sumL (rankings.map (fun r =>
    match r.findIdx? (fun q => decide (q = p)) with
    | some i => Score.recip (i + k)
    | none => Score.zero))

/-- The candidate list of one prefetch sub-query: the stored points that
satisfy the metadata pre-filter, ranked by descending similarity under the
sub-query vector field, cut to the prefetch limit. The spec wire contract
applies the metadata filter pre-fusion to both sub-queries equivalently. -/
def prefetchCandidates (sim : String → String → ℕ → Score) (store : List Point)
    (mf : Option MetaFilter) (pf : Prefetch) : List Point :=
  (insSort (scoreDescLe (fun p => sim pf.vecField pf.qtext p.id))
    (store.filter (fun p => matchesFilter mf p.payload))).take pf.limit

/-- The vector-store model of query_points with a Reciprocal Rank Fusion
query: run every prefetch, fuse the sub-rankings by descending RRF score over
the union of their candidates, and cut to the top level limit. -/
def queryPoints (sim : String → String → ℕ → Score) (k : ℕ) (store : List Point)
    (qq : QdrantQuery) : List Point :=
  let rankings := qq.prefetch.map (prefetchCandidates sim store qq.queryFilter)
  (insSort (scoreDescLe (rrfScore k rankings)) (dedupKeepFirst rankings.flatten)).take qq.limit

/-- The fused query that HybridSearch.query_hybrid_search builds
(src/hybrid_retrieval.py lines 45-64): a sparse prefetch and a dense prefetch,
each with the per-call limit, the metadata filter, and no top level limit, so
the qdrant client default applies. -/
def mkHybridQuery (q : String) (mf : Option MetaFilter) (lim : ℕ) : QdrantQuery :=
  ⟨[⟨"sparse", q, lim⟩, ⟨"dense", q, lim⟩], mf, qdrantDefaultLimit⟩

/-- The list comprehension point.payload["text"] over the returned points:
a missing text key raises KeyError at the first offending point. -/
def extractTexts : List Point → Except PyErr (List String)
  | [] => .ok []
  | p :: ps =>
    match p.payload.text with
    | some t =>
      match extractTexts ps with
      | .ok l => .ok (t :: l)
      | .error e => .error e
    | none => .error .keyError

/-- HybridSearch.query_hybrid_search (src/hybrid_retrieval.py lines 38-69):
embed the query densely, embed it sparsely, issue the single fused two
prefetch query, and return the text payload of every returned point. The two
embedding calls and the store round trip are effectful dependencies whose
outcome is passed in; any exception of theirs propagates unchanged, as the
source has no handler. -/
def query_hybrid_search (embedD embedS : Except PyErr Unit)
    (runQ : QdrantQuery → Except PyErr (List Point))
    (q : String) (mf : Option MetaFilter) (lim : ℕ) : Except PyErr (List String) :=
  match embedD with
  | .error e => .error e
  | .ok _ =>
    match embedS with
    | .error e => .error e
    | .ok _ =>
      match runQ (mkHybridQuery q mf lim) with
      | .error e => .error e
      | .ok pts => extractTexts pts

/-- query_hybrid_search in the run where both embeddings succeed and the store
answers the fused query with the queryPoints model. -/
def run_hybrid (sim : String → String → ℕ → Score) (k : ℕ) (store : List Point)
    (q : String) (mf : Option MetaFilter) (lim : ℕ) : Except PyErr (List String) :=
  query_hybrid_search (Except.ok ()) (Except.ok ())
    (fun qq => Except.ok (queryPoints sim k store qq)) q mf lim

/-- One text chunk entry of the per-file document summary of src/main.py:
the page label of the point and the preview of its text. -/
structure ChunkEntry where
  page : Option String
  text : String
deriving DecidableEq

/-- The per-file document summary built by DocumentStats.get_indexed_documents:
page labels, the file level metadata captured from the first point of the
file, and the text chunk previews. -/
structure DocSummary where
  pages : List String
  file_path : String
  file_type : String
  file_size : String
  creation_date : String
  last_modified_date : String
  text_chunks : List ChunkEntry
deriving DecidableEq

/-- The fresh summary created when a file name is first encountered
(src/main.py lines 48-57): empty page set, empty chunk list, file level fields
from this payload with empty string defaults. -/
def initSummary (p : Payload) : DocSummary :=
  ⟨[], p.file_path.getD "", p.file_type.getD "", p.file_size.getD "",
    p.creation_date.getD "", p.last_modified_date.getD "", []⟩

/-- Adding an element to the page set, recorded in encounter order. -/
def addToSet (l : List String) (x : String) : List String :=
  if x ∈ l then l else l ++ [x]

/-- The page set update of one point: add its page label when present. -/
def addPage (l : List String) (p : Payload) : List String :=
  match p.page_label with
  | some lb => addToSet l lb
  | none => l

/-- The chunk entries contributed by one point: one preview when the payload
has a text field, none otherwise (src/main.py lines 63-72). -/
def chunkOf (p : Payload) : List ChunkEntry :=
  match p.text with
  | some t => [⟨p.page_label, preview t⟩]
  | none => []

/-- The update applied to an existing (or fresh) summary by one point of its
file: record the page label and append the text chunk preview. -/
def stepSummary (d : DocSummary) (p : Payload) : DocSummary :=
  { d with pages := addPage d.pages p,
           text_chunks := d.text_chunks ++ chunkOf p }

/-- One iteration of the aggregation loop of get_indexed_documents over the
Python dict, modelled as an association list in insertion order: update the
entry of the file name of the payload, or append a fresh one. -/
def updateDocs : List (Option String × DocSummary) → Payload → List (Option String × DocSummary)
  | [], pay => [(pay.file_name, stepSummary (initSummary pay) pay)]
  | kv :: rest, pay =>
    if kv.1 = pay.file_name then (kv.1, stepSummary kv.2 pay) :: rest
    else kv :: updateDocs rest pay

/-- Dict lookup in the association list model. -/
def lookupDoc (docs : List (Option String × DocSummary)) (k : Option String) : Option DocSummary :=
  (docs.find? (fun kv => decide (kv.1 = k))).map Prod.snd

/-- The aggregation loop over all scanned payloads. -/
def buildDocs (pays : List Payload) : List (Option String × DocSummary) :=
  pays.foldl updateDocs []

/-- The effect of one payload on the summary of its own file, at the level of
an optional summary: a missing summary starts from the fresh one. Used to
characterise the aggregation loop per key. -/
def stepOpt (o : Option DocSummary) (pa : Payload) : Option DocSummary :=
  some (stepSummary (o.getD (initSummary pa)) pa)

/-- The Python sort key int(x) if x.isdigit() else float("inf"), encoded as a
lexicographic pair: digit strings map to (0, value), everything else to the
common top class (1, 0) standing for infinity. -/
def pageKey (s : String) : ℕ × ℕ :=
  if pyIsDigit s then (0, pyInt s) else (1, 0)

/-- Comparison of two page labels under the Python sort key. -/
def pageLe (a b : String) : Bool :=
  decide ((pageKey a).1 < (pageKey b).1) ||
    (decide ((pageKey a).1 = (pageKey b).1) && decide ((pageKey a).2 ≤ (pageKey b).2))

/-- Python sorted(list(pages), key=...) over the page labels (src/main.py
lines 76-79): a stable sort under the numeric-else-infinity key. -/
def sortPages (l : List String) : List String := insSort pageLe l

/-- get_indexed_documents on a successful scroll: aggregate every point
payload into the per-file summaries, then sort the page set of every file.
The iteration order of the Python set of pages is unspecified (hash
dependent), so the conversion list(set) is a parameter iterSet; a faithful
instance yields some permutation of the collected labels. -/
def get_indexed_documents_ok (iterSet : List String → List String)
    (pts : List Point) : List (Option String × DocSummary) :=
  (buildDocs (pts.map Point.payload)).map
    (fun kv => (kv.1, { kv.2 with pages := sortPages (iterSet kv.2.pages) }))

/-- DocumentStats.get_indexed_documents (src/main.py lines 34-85): scroll all
points and build the summary; any exception is caught, logged, and the empty
mapping is returned. -/
def get_indexed_documents (iterSet : List String → List String)
    (scroll : Except PyErr (List Point)) : List (Option String × DocSummary) :=
  match scroll with
  | .ok pts => get_indexed_documents_ok iterSet pts
  | .error _ => []

/-- DocumentStats.search_documents (src/main.py lines 87-92): run the hybrid
search with no metadata filter; on any exception return the empty list, on
success return exactly the list the hybrid search produced. -/
def search_documents (embedD embedS : Except PyErr Unit)
    (runQ : QdrantQuery → Except PyErr (List Point))
    (query_text : String) (lim : ℕ) : List String :=
  match query_hybrid_search embedD embedS runQ query_text none lim with
  | .ok l => l
  | .error _ => []

/-- A document chunk produced by the document processor: its text and its
file level metadata. -/
structure Chunk where
  text : String
  meta : Payload
deriving DecidableEq

/-- Splitting a list into consecutive batches of size bs, with explicit fuel
for structural recursion; every step consumes at least the head, so fuel equal
to the list length always suffices. -/
def chunkBatchesGo (bs : ℕ) : ℕ → List α → List (List α)
  | _, [] => []
  | 0, _ :: _ => []
  | fuel + 1, x :: xs => (x :: xs.take (bs - 1)) :: chunkBatchesGo bs fuel (xs.drop (bs - 1))

/-- Splitting a list into consecutive batches of size bs. -/
def chunkBatches (bs : ℕ) (l : List α) : List (List α) := chunkBatchesGo bs l.length l

/-- Modelled from the spec: the point assembled for each chunk by
QdrantIndexer.index_documents (indexing.py, not under src/): a fresh unique
identifier (the chunk position) and payload = chunk metadata plus its text. -/
def mkPoints (chunks : List Chunk) : List Point :=
  chunks.enum.map (fun ic => ⟨ic.1, { ic.2.meta with text := some ic.2.text }⟩)

/-- Modelled from the spec: the sequential batch upsert loop of
QdrantIndexer.index_documents. The oracle fails says which batch upserts fail
against the store; a failed batch is logged, leaves the store unchanged and
clears the overall success flag, and the loop continues; a successful batch
appends its points. Nothing is rolled back. -/
def upsertBatches (fails : ℕ → Bool) : ℕ → List Point → Bool → List (List Point) → List Point × Bool
  | _, st, ok, [] => (st, ok)
  | i, st, ok, b :: bs =>
    if fails i then upsertBatches fails (i + 1) st false bs
    else upsertBatches fails (i + 1) (st ++ b) ok bs

/-- Modelled from the spec: QdrantIndexer.index_documents (indexing.py, not
under src/, spec section 4.3): embed every chunk, assemble its point, upsert
the points in batches, return true only if every batch upserts successfully,
without rolling back previously succeeded batches. -/
def index_documents (batchSize : ℕ) (fails : ℕ → Bool) (store : List Point)
    (chunks : List Chunk) : List Point × Bool :=
  upsertBatches fails 0 store true (chunkBatches batchSize (mkPoints chunks))

/-- The JSON body of a successful POST /index/ response. -/
structure IndexResponse where
  success : Bool
  message : String
  document_count : Option ℕ
deriving DecidableEq

/-- An exception inside the POST /index/ handler body: an HTTPException with
status and detail, or any other Python exception with its message. -/
inductive EndpointErr where
  | http (status : ℕ) (detail : String)
  | pyexc (msg : String)
deriving DecidableEq

/-- The first submitted file whose lowercased name does not end in .pdf, if
any: the upload loop raises at the first such file. -/
def findNonPdf (files : List String) : Option String :=
  files.find? (fun f => !pyEndsWith (pyLower f) ".pdf")

/-- The try body of the POST /index/ handler (src/main_fastapi.py lines
42-79): reject the first non PDF file with HTTPException 400, reject a
processing error with HTTPException 400, read nodes[0] (IndexError on an empty
chunk list), raise HTTPException 500 when indexing reports failure, otherwise
return the success response with document_count the number of chunks. -/
def index_documents_inner (files : List String) (procChunks : List Chunk)
    (procErr : Option String) (indexOk : Bool) : Except EndpointErr IndexResponse :=
  match findNonPdf files with
  | some f => .error (.http 400 ("File " ++ f ++ " is not a PDF"))
  | none =>
    match procErr with
    | some err => .error (.http 400 err)
    | none =>
      match procChunks with
      | [] => .error (.pyexc "list index out of range")
      | c :: cs =>
        if indexOk then
          .ok ⟨true, "Documents processed and indexed successfully", some (c :: cs).length⟩
        else .error (.http 500 "Some batches failed during indexing. Check logs for details.")

/-- The full POST /index/ handler (src/main_fastapi.py lines 36-82): the try
body wrapped in the blanket except Exception clause, which re-raises every
exception, HTTPException included since HTTPException subclasses Exception, as
HTTPException(500, str(e)); str of an HTTPException is "status: detail". The
result is either the HTTP error (status, detail) or the success body. -/
def index_documents_endpoint (files : List String) (procChunks : List Chunk)
    (procErr : Option String) (indexOk : Bool) : Except (ℕ × String) IndexResponse :=
  match index_documents_inner files procChunks procErr indexOk with
  | .ok r => .ok r
  | .error (.http st d) => .error (500, Nat.repr st ++ ": " ++ d)
  | .error (.pyexc m) => .error (500, m)

/-- The process state visible to the API handlers: the stored points and the
health of the external collaborators. GET /health/ reads none of it. -/
structure ServerState where
  store : List Point
  storeReachable : Bool
  embedLoaded : Bool

/-- The GET /health/ handler (src/main_fastapi.py lines 102-107): the constant
body status healthy, whatever the process state. -/
def health_check (s : ServerState) : List (String × String) := [("status", "healthy")]

/-- The chunk previews that the points of one file contribute, in scan order:
one entry per point of that file carrying a text payload. -/
def chunksFor (k : Option String) (pays : List Payload) : List ChunkEntry :=
  ((pays.filter (fun pa => decide (pa.file_name = k))).map chunkOf).flatten

/-- The page label set of one file in encounter order: first occurrences of
the page labels of its points, in scan order. -/
def encounterPages (k : Option String) (pays : List Payload) : List String :=
  (pays.filter (fun pa => decide (pa.file_name = k))).foldl addPage []

/-- A payload with the given file name, page label and text, every other
field absent. -/
def mkPayload (fname plabel txt : Option String) : Payload :=
  ⟨fname, none, none, none, none, none, plabel, txt⟩

/-- Six stored points of one file, all carrying a text payload, used to
evaluate the retrieval path on concrete data. -/
def storeCex : List Point :=
  [⟨0, mkPayload (some "a.pdf") none (some "t0")⟩,
   ⟨1, mkPayload (some "a.pdf") none (some "t1")⟩,
   ⟨2, mkPayload (some "a.pdf") none (some "t2")⟩,
   ⟨3, mkPayload (some "a.pdf") none (some "t3")⟩,
   ⟨4, mkPayload (some "a.pdf") none (some "t4")⟩,
   ⟨5, mkPayload (some "a.pdf") none (some "t5")⟩]

/-- Concrete similarity scores for storeCex: the sparse field ranks points
0, 1, 2 highest, the dense field ranks points 3, 4, 5 highest, so the two
prefetch top 3 sets are disjoint. -/
def simCex (vecField : String) (q : String) (pid : ℕ) : Score :=
  ⟨(if vecField = "sparse" then [60, 50, 40, 3, 2, 1] else [3, 2, 1, 60, 50, 40]).getD pid 0, 1⟩

/-- Two points of one file whose page labels iv and ii are both non numeric,
encountered in the order iv then ii. -/
def cexPts7 : List Point :=
  [⟨0, mkPayload (some "a.pdf") (some "iv") none⟩,
   ⟨1, mkPayload (some "a.pdf") (some "ii") none⟩]

/-- The summary that get_indexed_documents_ok builds for cexPts7 under the
identity set iteration order. -/
def cexSummary7 : DocSummary := ⟨["iv", "ii"], "", "", "", "", "", []⟩

/-- Two points of one file for the preview witness: one with a short text,
one with no text payload. -/
def cexPts10 : List Point :=
  [⟨0, mkPayload (some "a.pdf") (some "1") (some "hello")⟩,
   ⟨1, mkPayload (some "a.pdf") none none⟩]

/-- The summary that get_indexed_documents_ok builds for cexPts10 under the
identity set iteration order. -/
def cexSummary10 : DocSummary := ⟨["1"], "", "", "", "", "", [⟨some "1", "hello"⟩]⟩

/-- Three chunks for the indexer witness. -/
def cexChunks : List Chunk :=
  [⟨"c0", mkPayload (some "a.pdf") none none⟩,
   ⟨"c1", mkPayload (some "a.pdf") none none⟩,
   ⟨"c2", mkPayload (some "a.pdf") none none⟩]

/-- A batch failure oracle failing exactly batch 0. -/
def cexFails (i : ℕ) : Bool := decide (i = 0)

/-- The point assembled for the third chunk of cexChunks. -/
def cexPt2 : Point := ⟨2, { (mkPayload (some "a.pdf") none none) with text := some "c2" }⟩

/-! Bridge lemmas: the Score fraction model agrees with rational arithmetic. -/

theorem Score.leB_iff (a b : Score) (ha : 0 < a.den) (hb : 0 < b.den) :
    a.leB b = true ↔ a.toRat ≤ b.toRat := by
  rw [Score.leB, Score.toRat, Score.toRat,
    div_le_div_iff (by exact_mod_cast ha) (by exact_mod_cast hb)]
  norm_cast
  exact decide_eq_true_iff

theorem Score.toRat_add (a b : Score) (ha : 0 < a.den) (hb : 0 < b.den) :
    (a.add b).toRat = a.toRat + b.toRat := by
  simp only [Score.add, Score.toRat]
  push_cast
  field_simp

/-! General lemmas about the stable insertion sort. -/

theorem insertLe_perm (le : α → α → Bool) (x : α) (l : List α) :
    (insertLe le x l).Perm (x :: l) := by
  induction l with
  | nil => simp [insertLe]
  | cons y ys ih =>
    rw [insertLe]
    by_cases h : le y x = true
    · simp only [h, if_true]
      exact ((ih.cons y).trans (List.Perm.swap x y ys)).symm.symm
    · simp [h]

theorem insSortGo_perm (le : α → α → Bool) (l : List α) :
    ∀ acc : List α, (insSortGo le acc l).Perm (acc ++ l) := by
  induction l with
  | nil => intro acc; simp [insSortGo]
  | cons x xs ih =>
    intro acc
    rw [insSortGo]
    refine (ih (insertLe le x acc)).trans ?_
    exact (List.Perm.append_right xs (insertLe_perm le x acc)).trans List.perm_middle.symm

theorem insSort_perm (le : α → α → Bool) (l : List α) : (insSort le l).Perm l := by
  simpa using insSortGo_perm le l []

theorem mem_insSort (le : α → α → Bool) (l : List α) (a : α) :
    a ∈ insSort le l ↔ a ∈ l :=
  (insSort_perm le l).mem_iff

/-- C8: for every request to GET /health/ while the process is up, the
response body equals status healthy, independent of the vector store and
embedding model state. -/
theorem health_check_constant :
    (∀ s : ServerState, health_check s = [("status", "healthy")]) ∧
    (∀ s t : ServerState, health_check s = health_check t) :=
  ⟨fun _ => rfl, fun _ _ => rfl⟩

/-- C9: when fetching or aggregating raises any exception,
DocumentStats.get_indexed_documents returns the empty mapping, never a
partially built summary; on a successful scroll it returns the full
aggregation. -/
theorem get_indexed_documents_error_empty (iterSet : List String → List String) (e : PyErr) :
    get_indexed_documents iterSet (Except.error e) = [] ∧
    ∀ pts, get_indexed_documents iterSet (Except.ok pts) = get_indexed_documents_ok iterSet pts :=
  ⟨rfl, fun _ => rfl⟩

/-- C5: any exception raised by the dense embedding, the sparse embedding, or
the vector-store round trip propagates unchanged out of query_hybrid_search;
no retry happens and no partial result list is returned. -/
theorem query_hybrid_search_error_propagation
    (embedD embedS : Except PyErr Unit) (runQ : QdrantQuery → Except PyErr (List Point))
    (q : String) (mf : Option MetaFilter) (lim : ℕ) (e : PyErr)
    (h : embedD = .error e ∨ (embedD = .ok () ∧ embedS = .error e) ∨
      (embedD = .ok () ∧ embedS = .ok () ∧ runQ (mkHybridQuery q mf lim) = .error e)) :
    query_hybrid_search embedD embedS runQ q mf lim = .error e := by
  rcases h with h1 | ⟨h1, h2⟩ | ⟨h1, h2, h3⟩
  · simp [query_hybrid_search, h1]
  · simp [query_hybrid_search, h1, h2]
  · simp [query_hybrid_search, h1, h2, h3]

/-- Witness for C5: a failing dense embedding propagates as that very error. -/
theorem query_hybrid_search_error_propagation_witness :
    query_hybrid_search (Except.error (PyErr.exc "down")) (Except.ok ())
      (fun _ => Except.ok []) "q" none 5 = Except.error (PyErr.exc "down") :=
  query_hybrid_search_error_propagation _ _ _ _ _ _ _ (Or.inl rfl)

/-- C6: DocumentStats.search_documents returns the empty list when the hybrid
search raises any exception, and exactly the list produced by
query_hybrid_search when it succeeds. -/
theorem search_documents_error_empty
    (embedD embedS : Except PyErr Unit) (runQ : QdrantQuery → Except PyErr (List Point))
    (q : String) (lim : ℕ) :
    (∀ e, query_hybrid_search embedD embedS runQ q none lim = .error e →
      search_documents embedD embedS runQ q lim = []) ∧
    (∀ l, query_hybrid_search embedD embedS runQ q none lim = .ok l →
      search_documents embedD embedS runQ q lim = l) := by
  constructor <;> intro x h <;> simp [search_documents, h]

/-- Witness for C6: a store outage yields the empty result list. -/
theorem search_documents_error_empty_witness :
    search_documents (Except.error (PyErr.exc "down")) (Except.ok ())
      (fun _ => Except.ok []) "q" 5 = [] :=
  (search_documents_error_empty _ _ _ _ _).1 (PyErr.exc "down") rfl

/-- C4: evaluation of the POST /index/ handler. A non PDF upload is answered
with status 500, not the 400 the handler tries to raise, because the blanket
except Exception clause catches the HTTPException(400) and re-raises it as
HTTPException(500, str(e)); an indexing failure is answered with 500; a fully
successful run is answered with the success body carrying the chunk count. -/
theorem index_endpoint_status_eval :
    index_documents_endpoint ["notes.txt"] [] none true =
      Except.error (500, "400: File notes.txt is not a PDF") ∧
    index_documents_endpoint ["report.pdf"] cexChunks none false =
      Except.error (500, "500: Some batches failed during indexing. Check logs for details.") ∧
    index_documents_endpoint ["report.pdf"] cexChunks none true =
      Except.ok ⟨true, "Documents processed and indexed successfully", some 3⟩ := by
  decide

/-- C1: evaluation of query_hybrid_search at limit 3 on a store where the two
prefetch top 3 candidate sets are disjoint. The query carries exactly the two
prefetch sub-queries with per-prefetch limit 3, but its top level limit is the
qdrant client default 10, because the source passes none; all six fused
candidates are returned, so the result list exceeds the requested limit. -/
theorem hybrid_search_exceeds_limit :
    run_hybrid simCex 2 storeCex "q" none 3 =
      Except.ok ["t0", "t3", "t1", "t4", "t2", "t5"] ∧
    ¬ (["t0", "t3", "t1", "t4", "t2", "t5"].length ≤ 3) ∧
    (mkHybridQuery "q" none 3).prefetch = [⟨"sparse", "q", 3⟩, ⟨"dense", "q", 3⟩] ∧
    (mkHybridQuery "q" none 3).limit = 10 := by
  decide

theorem mem_foldl_dedup [DecidableEq α] (l : List α) :
    ∀ (acc : List α) (a : α),
      a ∈ l.foldl (fun acc x => if x ∈ acc then acc else acc ++ [x]) acc →
      a ∈ acc ∨ a ∈ l := by
  induction l with
  | nil => intro acc a h; exact Or.inl h
  | cons x xs ih =>
    intro acc a h
    rcases ih _ a h with h1 | h1
    · by_cases hx : x ∈ acc
      · simp only [hx, if_true] at h1
        exact Or.inl h1
      · simp only [hx, if_false, List.mem_append, List.mem_singleton] at h1
        rcases h1 with h1 | h1
        · exact Or.inl h1
        · exact Or.inr (h1 ▸ List.mem_cons_self x xs)
    · exact Or.inr (List.mem_cons_of_mem x h1)

theorem mem_dedupKeepFirst [DecidableEq α] (l : List α) (a : α)
    (h : a ∈ dedupKeepFirst l) : a ∈ l := by
  rcases mem_foldl_dedup l [] a h with h1 | h1
  · cases h1
  · exact h1

theorem extractTexts_ok_mem (ps : List Point) :
    ∀ l : List String, extractTexts ps = .ok l →
      ∀ t ∈ l, ∃ p, p ∈ ps ∧ p.payload.text = some t := by
  induction ps with
  | nil =>
    intro l h t ht
    simp only [extractTexts, Except.ok.injEq] at h
    subst h
    cases ht
  | cons p ps ih =>
    intro l h t ht
    rw [extractTexts] at h
    cases hx : p.payload.text with
    | none => rw [hx] at h; cases h
    | some tp =>
      rw [hx] at h
      cases hrec : extractTexts ps with
      | error e => rw [hrec] at h; cases h
      | ok l2 =>
        rw [hrec] at h
        injection h with h
        subst h
        rw [List.mem_cons] at ht
        rcases ht with rfl | ht
        · exact ⟨p, List.mem_cons_self p ps, hx⟩
        · obtain ⟨p2, hp2, htext⟩ := ih l2 hrec t ht
          exact ⟨p2, List.mem_cons_of_mem p hp2, htext⟩

theorem queryPoints_mem (sim : String → String → ℕ → Score) (k : ℕ)
    (store : List Point) (qq : QdrantQuery) (p : Point)
    (hp : p ∈ queryPoints sim k store qq) :
    p ∈ store ∧ matchesFilter qq.queryFilter p.payload = true := by
  unfold queryPoints at hp
  have h1 := List.mem_of_mem_take hp
  rw [mem_insSort] at h1
  have h2 := mem_dedupKeepFirst _ _ h1
  rw [List.mem_flatten] at h2
  obtain ⟨r, hr, hpr⟩ := h2
  rw [List.mem_map] at hr
  obtain ⟨pf, _, rfl⟩ := hr
  unfold prefetchCandidates at hpr
  have h3 := List.mem_of_mem_take hpr
  rw [mem_insSort, List.mem_filter] at h3
  exact h3

/-- C2: with a metadata filter provided, the filter pre-filters both prefetch
sub-queries equivalently at the store, so every passage returned by
query_hybrid_search is the text of a stored point whose payload satisfies the
filter. -/
theorem hybrid_search_filter_sound
    (sim : String → String → ℕ → Score) (k : ℕ) (store : List Point)
    (q : String) (f : MetaFilter) (lim : ℕ) (l : List String)
    (h : run_hybrid sim k store q (some f) lim = .ok l) :
    ∀ txt ∈ l, ∃ p, p ∈ store ∧ matchesFilter (some f) p.payload = true ∧
      p.payload.text = some txt := by
  intro txt htxt
  have hrun : extractTexts (queryPoints sim k store (mkHybridQuery q (some f) lim)) = .ok l := h
  obtain ⟨p, hpmem, htext⟩ := extractTexts_ok_mem _ _ hrun txt htxt
  have hm := queryPoints_mem sim k store _ p hpmem
  exact ⟨p, hm.1, hm.2, htext⟩

/-- Witness for C2: on a concrete filtered query, the first returned passage
comes from a stored point satisfying the file name filter. -/
theorem hybrid_search_filter_sound_witness :
    ∃ p, p ∈ storeCex ∧
      matchesFilter (some ⟨[("file_name", "a.pdf")]⟩) p.payload = true ∧
      p.payload.text = some "t0" :=
  hybrid_search_filter_sound simCex 2 storeCex "q" ⟨[("file_name", "a.pdf")]⟩ 3
    ["t0", "t3", "t1", "t4", "t2", "t5"] (by decide) "t0" (by decide)

theorem upsertBatches_flag (fails : ℕ → Bool) :
    ∀ (bs : List (List Point)) (i : ℕ) (st : List Point) (ok : Bool),
      (upsertBatches fails i st ok bs).2 = true ↔
        (ok = true ∧ ∀ j, j < bs.length → fails (i + j) = false) := by
  intro bs
  induction bs with
  | nil => intro i st ok; simp [upsertBatches]
  | cons b bs ih =>
    intro i st ok
    rw [upsertBatches]
    by_cases hf : fails i = true
    · rw [if_pos hf, ih]
      constructor
      · rintro ⟨h, _⟩; cases h
      · rintro ⟨_, hall⟩
        have h0 := hall 0 (by simp)
        rw [Nat.add_zero, hf] at h0
        cases h0
    · rw [if_neg hf, ih]
      rw [Bool.not_eq_true] at hf
      constructor
      · rintro ⟨hok, hall⟩
        refine ⟨hok, fun j hj => ?_⟩
        cases j with
        | zero => simpa using hf
        | succ j2 =>
          have hj2 : j2 < bs.length := by
            simp only [List.length_cons] at hj; omega
          have hx := hall j2 hj2
          rw [show i + (j2 + 1) = i + 1 + j2 by omega]
          exact hx
      · rintro ⟨hok, hall⟩
        refine ⟨hok, fun j hj => ?_⟩
        have hx := hall (j + 1) (by simp only [List.length_cons]; omega)
        rw [show i + 1 + j = i + (j + 1) by omega]
        exact hx

theorem upsertBatches_mono (fails : ℕ → Bool) :
    ∀ (bs : List (List Point)) (i : ℕ) (st : List Point) (ok : Bool) (p : Point),
      p ∈ st → p ∈ (upsertBatches fails i st ok bs).1 := by
  intro bs
  induction bs with
  | nil => intro i st ok p hp; exact hp
  | cons b bs ih =>
    intro i st ok p hp
    rw [upsertBatches]
    by_cases hf : fails i = true
    · rw [if_pos hf]; exact ih _ _ _ p hp
    · rw [if_neg hf]; exact ih _ _ _ p (List.mem_append_left b hp)

theorem upsertBatches_in (fails : ℕ → Bool) :
    ∀ (bs : List (List Point)) (i : ℕ) (st : List Point) (ok : Bool)
      (j : ℕ) (b : List Point), bs[j]? = some b → fails (i + j) = false →
      ∀ p ∈ b, p ∈ (upsertBatches fails i st ok bs).1 := by
  intro bs
  induction bs with
  | nil => intro i st ok j b hb; cases hb
  | cons hd tl ih =>
    intro i st ok j b hb hf p hp
    rw [upsertBatches]
    cases j with
    | zero =>
      rw [List.getElem?_cons_zero] at hb
      injection hb with hb
      subst hb
      rw [Nat.add_zero] at hf
      rw [if_neg (by rw [hf]; exact Bool.false_ne_true)]
      exact upsertBatches_mono fails tl _ _ _ p (List.mem_append_right st hp)
    | succ j2 =>
      rw [List.getElem?_cons_succ] at hb
      have hf2 : fails (i + 1 + j2) = false := by
        rw [show i + 1 + j2 = i + (j2 + 1) by omega]; exact hf
      by_cases hfi : fails i = true
      · rw [if_pos hfi]; exact ih _ _ _ j2 b hb hf2 p hp
      · rw [if_neg hfi]; exact ih _ _ _ j2 b hb hf2 p hp

/-- C3: index_documents returns true exactly when every batch upsert succeeds;
a failed batch makes the call return false, and every batch that succeeded
keeps its points persisted in the store, with no rollback. -/
theorem index_documents_batch_semantics
    (batchSize : ℕ) (fails : ℕ → Bool) (store : List Point) (chunks : List Chunk) :
    ((index_documents batchSize fails store chunks).2 = true ↔
      ∀ j, j < (chunkBatches batchSize (mkPoints chunks)).length → fails j = false) ∧
    (∀ j b, (chunkBatches batchSize (mkPoints chunks))[j]? = some b →
      fails j = false → ∀ p ∈ b, p ∈ (index_documents batchSize fails store chunks).1) := by
  constructor
  · rw [index_documents, upsertBatches_flag]
    simp [Nat.zero_add]
  · intro j b hb hf p hp
    rw [index_documents]
    exact upsertBatches_in fails _ 0 store true j b hb (by simpa using hf) p hp

/-- Witness for C3: with batch 0 failing out of the two batches of three
chunks, the call reports failure, yet the point of the succeeded batch 1 is
persisted. -/
theorem index_documents_batch_semantics_witness :
    cexPt2 ∈ (index_documents 2 cexFails [] cexChunks).1 :=
  (index_documents_batch_semantics 2 cexFails [] cexChunks).2 1 [cexPt2]
    (by decide) (by decide) cexPt2 (by decide)

/-! Lemmas on the dict model of the aggregation loop of get_indexed_documents. -/

theorem lookupDoc_nil (k : Option String) : lookupDoc [] k = none := rfl

theorem lookupDoc_cons (kv : Option String × DocSummary)
    (rest : List (Option String × DocSummary)) (k : Option String) :
    lookupDoc (kv :: rest) k = if kv.1 = k then some kv.2 else lookupDoc rest k := by
  by_cases h : kv.1 = k
  · rw [lookupDoc, List.find?_cons_of_pos _ (by simpa using h), if_pos h]
    rfl
  · rw [lookupDoc, List.find?_cons_of_neg _ (by simpa using h), if_neg h]
    rfl

theorem lookup_updateDocs (docs : List (Option String × DocSummary)) (pay : Payload)
    (k : Option String) :
    lookupDoc (updateDocs docs pay) k =
      if k = pay.file_name then
        some (stepSummary ((lookupDoc docs k).getD (initSummary pay)) pay)
      else lookupDoc docs k := by
  induction docs with
  | nil =>
    by_cases hk : k = pay.file_name
    · subst hk
      simp [updateDocs, lookupDoc_cons, lookupDoc_nil]
    · rw [updateDocs, lookupDoc_cons, if_neg (fun hh => hk hh.symm), if_neg hk]
  | cons kv rest ih =>
    rw [updateDocs]
    by_cases h1 : kv.1 = pay.file_name
    · rw [if_pos h1]
      by_cases hk : k = pay.file_name
      · have hkv : kv.1 = k := h1.trans hk.symm
        rw [lookupDoc_cons, if_pos hkv, if_pos hk, lookupDoc_cons, if_pos hkv]
        rfl
      · have hkv : kv.1 ≠ k := fun hh => hk (hh.symm.trans h1)
        rw [lookupDoc_cons, if_neg hkv, if_neg hk, lookupDoc_cons, if_neg hkv]
    · rw [if_neg h1]
      by_cases hk2 : kv.1 = k
      · have hk : k ≠ pay.file_name := fun hh => h1 (hk2.trans hh)
        rw [lookupDoc_cons, if_pos hk2, if_neg hk, lookupDoc_cons, if_pos hk2]
      · rw [lookupDoc_cons, if_neg hk2, ih]
        by_cases hk : k = pay.file_name
        · rw [if_pos hk, if_pos hk, lookupDoc_cons, if_neg hk2]
        · rw [if_neg hk, if_neg hk, lookupDoc_cons, if_neg hk2]

theorem lookup_foldl_updateDocs (k : Option String) :
    ∀ (pays : List Payload) (docs : List (Option String × DocSummary)),
      lookupDoc (pays.foldl updateDocs docs) k =
        (pays.filter (fun pa => decide (pa.file_name = k))).foldl stepOpt (lookupDoc docs k) := by
  intro pays
  induction pays with
  | nil => intro docs; rfl
  | cons pa pays ih =>
    intro docs
    rw [List.foldl_cons, ih, List.filter_cons]
    by_cases hpa : pa.file_name = k
    · rw [if_pos (by simpa using hpa), List.foldl_cons, lookup_updateDocs,
        if_pos hpa.symm]
      rfl
    · rw [if_neg (by simpa using hpa), lookup_updateDocs,
        if_neg (fun hh => hpa hh.symm)]

theorem foldl_stepOpt_chunks :
    ∀ (rel : List Payload) (o : Option DocSummary) (d : DocSummary),
      rel.foldl stepOpt o = some d →
      d.text_chunks = ((o.map DocSummary.text_chunks).getD []) ++ (rel.map chunkOf).flatten := by
  intro rel
  induction rel with
  | nil =>
    intro o d h
    cases o with
    | none => cases h
    | some d0 =>
      injection h with h
      subst h
      simp
  | cons q qs ih =>
    intro o d h
    rw [List.foldl_cons] at h
    have hx := ih (stepOpt o q) d h
    have hstep : ((stepOpt o q).map DocSummary.text_chunks).getD [] =
        ((o.map DocSummary.text_chunks).getD []) ++ chunkOf q := by
      cases o with
      | none => rfl
      | some d0 => rfl
    rw [hstep] at hx
    simpa [List.append_assoc] using hx

theorem foldl_stepOpt_pages :
    ∀ (rel : List Payload) (o : Option DocSummary) (d : DocSummary),
      rel.foldl stepOpt o = some d →
      d.pages = rel.foldl addPage ((o.map DocSummary.pages).getD []) := by
  intro rel
  induction rel with
  | nil =>
    intro o d h
    cases o with
    | none => cases h
    | some d0 =>
      injection h with h
      subst h
      simp
  | cons q qs ih =>
    intro o d h
    rw [List.foldl_cons] at h
    have hx := ih (stepOpt o q) d h
    have hstep : ((stepOpt o q).map DocSummary.pages).getD [] =
        addPage ((o.map DocSummary.pages).getD []) q := by
      cases o with
      | none => rfl
      | some d0 => rfl
    rw [hstep] at hx
    simpa using hx

theorem keys_updateDocs (docs : List (Option String × DocSummary)) (pay : Payload) :
    (updateDocs docs pay).map Prod.fst =
      if pay.file_name ∈ docs.map Prod.fst then docs.map Prod.fst
      else docs.map Prod.fst ++ [pay.file_name] := by
  induction docs with
  | nil => simp [updateDocs]
  | cons kv rest ih =>
    rw [updateDocs]
    by_cases h1 : kv.1 = pay.file_name
    · rw [if_pos h1]
      simp [h1.symm]
    · rw [if_neg h1]
      simp only [List.map_cons, ih, List.mem_cons]
      by_cases h2 : pay.file_name ∈ rest.map Prod.fst
      · rw [if_pos h2, if_pos (Or.inr h2)]
      · rw [if_neg h2, if_neg (by rintro (hh | hh); exact h1 hh.symm; exact h2 hh)]
        rfl

theorem nodup_keys_foldl_updateDocs :
    ∀ (pays : List Payload) (docs : List (Option String × DocSummary)),
      (docs.map Prod.fst).Nodup → ((pays.foldl updateDocs docs).map Prod.fst).Nodup := by
  intro pays
  induction pays with
  | nil => intro docs h; exact h
  | cons pa pays ih =>
    intro docs h
    rw [List.foldl_cons]
    refine ih (updateDocs docs pa) ?_
    rw [keys_updateDocs]
    by_cases hm : pa.file_name ∈ docs.map Prod.fst
    · rw [if_pos hm]; exact h
    · rw [if_neg hm]
      refine List.Nodup.append h (List.nodup_singleton _) ?_
      intro x hx hx2
      rw [List.mem_singleton] at hx2
      exact hm (hx2 ▸ hx)

theorem nodup_keys_buildDocs (pays : List Payload) :
    ((buildDocs pays).map Prod.fst).Nodup :=
  nodup_keys_foldl_updateDocs pays [] List.nodup_nil

theorem lookup_of_mem :
    ∀ (docs : List (Option String × DocSummary)), (docs.map Prod.fst).Nodup →
      ∀ (k : Option String) (d : DocSummary), (k, d) ∈ docs → lookupDoc docs k = some d := by
  intro docs
  induction docs with
  | nil => intro _ k d h; cases h
  | cons kv rest ih =>
    intro hnd k d h
    rw [List.map_cons, List.nodup_cons] at hnd
    rw [List.mem_cons] at h
    rcases h with h | h
    · rw [lookupDoc_cons, if_pos (by rw [← h])]
      rw [← h]
    · have hk : kv.1 ≠ k := by
        intro hh
        exact hnd.1 (hh ▸ List.mem_map_of_mem Prod.fst h)
      rw [lookupDoc_cons, if_neg hk]
      exact ih hnd.2 k d h

theorem mem_get_indexed_ok (iterSet : List String → List String) (pts : List Point)
    (k : Option String) (d : DocSummary)
    (h : (k, d) ∈ get_indexed_documents_ok iterSet pts) :
    ∃ d0, ((pts.map Point.payload).filter
        (fun pa => decide (pa.file_name = k))).foldl stepOpt none = some d0 ∧
      d = { d0 with pages := sortPages (iterSet d0.pages) } := by
  unfold get_indexed_documents_ok at h
  rw [List.mem_map] at h
  obtain ⟨⟨k1, d1⟩, hkv, heq⟩ := h
  rw [Prod.mk.injEq] at heq
  obtain ⟨hk, hd⟩ := heq
  subst hk
  refine ⟨d1, ?_, hd.symm⟩
  have hl : lookupDoc (buildDocs (pts.map Point.payload)) k1 = some d1 :=
    lookup_of_mem _ (nodup_keys_buildDocs _) k1 d1 hkv
  rw [buildDocs, lookup_foldl_updateDocs, lookupDoc_nil] at hl
  exact hl

/-- C10: in the document summary, every text preview is the full text payload
when it has at most 200 characters and otherwise exactly the first 200
characters followed by an ellipsis; the chunk list of a file consists of the
entries contributed by its points in scan order, and a point without a text
payload contributes no preview. -/
theorem text_chunk_previews (iterSet : List String → List String) (pts : List Point)
    (k : Option String) (d : DocSummary)
    (h : (k, d) ∈ get_indexed_documents_ok iterSet pts) :
    d.text_chunks = chunksFor k (pts.map Point.payload) ∧
    (∀ t : String, t.length ≤ 200 → preview t = t) ∧
    (∀ t : String, 200 < t.length → preview t = (⟨t.data.take 200⟩ : String) ++ "...") ∧
    (∀ p : Payload, p.text = none → chunkOf p = []) := by
  obtain ⟨d0, hfold, rfl⟩ := mem_get_indexed_ok iterSet pts k d h
  refine ⟨?_, ?_, ?_, ?_⟩
  · have hc := foldl_stepOpt_chunks _ _ _ hfold
    simpa [chunksFor] using hc
  · intro t ht
    rw [preview, if_neg (by omega)]
  · intro t ht
    rw [preview, if_pos ht]
  · intro p hp
    simp [chunkOf, hp]

/-- Witness for C10: the summary built from two concrete points, one with a
short text and one without a text payload, satisfies the preview
characterisation. -/
theorem text_chunk_previews_witness :
    cexSummary10.text_chunks = chunksFor (some "a.pdf") (cexPts10.map Point.payload) ∧
    (∀ t : String, t.length ≤ 200 → preview t = t) ∧
    (∀ t : String, 200 < t.length → preview t = (⟨t.data.take 200⟩ : String) ++ "...") ∧
    (∀ p : Payload, p.text = none → chunkOf p = []) :=
  text_chunk_previews id cexPts10 (some "a.pdf") cexSummary10 (by decide)

/-! Sortedness and stability of the stable insertion sort. -/

theorem insertLe_pairwise (le : α → α → Bool)
    (htot : ∀ a b, le a b = true ∨ le b a = true)
    (htrans : ∀ a b c, le a b = true → le b c = true → le a c = true)
    (x : α) (l : List α) (hl : l.Pairwise (fun a b => le a b = true)) :
    (insertLe le x l).Pairwise (fun a b => le a b = true) := by
  induction l with
  | nil => simp [insertLe]
  | cons y ys ih =>
    rw [List.pairwise_cons] at hl
    rw [insertLe]
    by_cases hxy : le y x = true
    · rw [if_pos hxy, List.pairwise_cons]
      constructor
      · intro z hz
        have hz2 := (insertLe_perm le x ys).mem_iff.mp hz
        rw [List.mem_cons] at hz2
        rcases hz2 with rfl | hz2
        · exact hxy
        · exact hl.1 z hz2
      · exact ih hl.2
    · rw [if_neg hxy, List.pairwise_cons]
      have hxy2 : le x y = true := by
        rcases htot x y with hh | hh
        · exact hh
        · exact absurd hh hxy
      constructor
      · intro z hz
        rw [List.mem_cons] at hz
        rcases hz with rfl | hz
        · exact hxy2
        · exact htrans x y z hxy2 (hl.1 z hz)
      · rw [List.pairwise_cons]
        exact ⟨hl.1, hl.2⟩

theorem insSortGo_pairwise (le : α → α → Bool)
    (htot : ∀ a b, le a b = true ∨ le b a = true)
    (htrans : ∀ a b c, le a b = true → le b c = true → le a c = true) :
    ∀ (l acc : List α), acc.Pairwise (fun a b => le a b = true) →
      (insSortGo le acc l).Pairwise (fun a b => le a b = true) := by
  intro l
  induction l with
  | nil => intro acc hacc; exact hacc
  | cons x xs ih =>
    intro acc hacc
    rw [insSortGo]
    exact ih _ (insertLe_pairwise le htot htrans x acc hacc)

theorem insSort_pairwise (le : α → α → Bool)
    (htot : ∀ a b, le a b = true ∨ le b a = true)
    (htrans : ∀ a b c, le a b = true → le b c = true → le a c = true)
    (l : List α) :
    (insSort le l).Pairwise (fun a b => le a b = true) :=
  insSortGo_pairwise le htot htrans l [] List.Pairwise.nil

theorem pageLe_total (a b : String) : pageLe a b = true ∨ pageLe b a = true := by
  simp only [pageLe, Bool.or_eq_true, Bool.and_eq_true, decide_eq_true_eq]
  omega

theorem pageLe_trans (a b c : String) (h1 : pageLe a b = true) (h2 : pageLe b c = true) :
    pageLe a c = true := by
  simp only [pageLe, Bool.or_eq_true, Bool.and_eq_true, decide_eq_true_eq] at h1 h2 ⊢
  omega

theorem pageLe_to_top (y x : String) (hx : pyIsDigit x = false) : pageLe y x = true := by
  by_cases hy : pyIsDigit y = true
  · simp [pageLe, pageKey, hx, hy]
  · simp [pageLe, pageKey, hx, hy]

theorem insertLe_pageLe_top (x : String) (l : List String) (hx : pyIsDigit x = false) :
    insertLe pageLe x l = l ++ [x] := by
  induction l with
  | nil => rfl
  | cons y ys ih =>
    rw [insertLe, if_pos (pageLe_to_top y x hx), ih]
    rfl

theorem filter_insertLe_digit (x : String) (l : List String) (hx : pyIsDigit x = true) :
    (insertLe pageLe x l).filter (fun s => !pyIsDigit s) =
      l.filter (fun s => !pyIsDigit s) := by
  induction l with
  | nil => simp [insertLe, hx]
  | cons y ys ih =>
    rw [insertLe]
    by_cases hxy : pageLe y x = true
    · rw [if_pos hxy]
      simp [List.filter_cons, ih]
    · rw [if_neg hxy]
      simp [List.filter_cons, hx]

theorem filter_insSortGo_pages :
    ∀ (l acc : List String),
      (insSortGo pageLe acc l).filter (fun s => !pyIsDigit s) =
        acc.filter (fun s => !pyIsDigit s) ++ l.filter (fun s => !pyIsDigit s) := by
  intro l
  induction l with
  | nil => intro acc; simp [insSortGo]
  | cons x xs ih =>
    intro acc
    rw [insSortGo, ih]
    by_cases hx : pyIsDigit x = true
    · rw [filter_insertLe_digit x acc hx]
      simp [List.filter_cons, hx]
    · rw [Bool.not_eq_true] at hx
      rw [insertLe_pageLe_top x acc hx]
      simp [List.filter_append, List.filter_cons, hx, List.append_assoc]

theorem filter_sortPages (l : List String) :
    (sortPages l).filter (fun s => !pyIsDigit s) = l.filter (fun s => !pyIsDigit s) := by
  rw [sortPages, insSort, filter_insSortGo_pages]
  rfl

/-- C7 (amended): for every file of the summary, the page label list is the
stable sort, under the numeric-else-infinity key, of the set iteration order
of the collected labels: it is sorted by the key comparator (numeric labels
ascending by integer value, every non numeric label after all numeric ones),
it is a permutation of the iterated label set, and the non numeric labels
appear in the set iteration order, which is unspecified and need not be the
encounter order. -/
theorem pages_sorted_by_key (iterSet : List String → List String) (pts : List Point)
    (k : Option String) (d : DocSummary)
    (h : (k, d) ∈ get_indexed_documents_ok iterSet pts) :
    d.pages = sortPages (iterSet (encounterPages k (pts.map Point.payload))) ∧
    d.pages.Pairwise (fun a b => pageLe a b = true) ∧
    d.pages.filter (fun s => !pyIsDigit s) =
      (iterSet (encounterPages k (pts.map Point.payload))).filter (fun s => !pyIsDigit s) ∧
    d.pages.Perm (iterSet (encounterPages k (pts.map Point.payload))) := by
  obtain ⟨d0, hfold, rfl⟩ := mem_get_indexed_ok iterSet pts k d h
  have hp : d0.pages = encounterPages k (pts.map Point.payload) := by
    have hx := foldl_stepOpt_pages _ _ _ hfold
    simpa [encounterPages] using hx
  refine ⟨?_, ?_, ?_, ?_⟩
  · show sortPages (iterSet d0.pages) = _
    rw [hp]
  · show (sortPages (iterSet d0.pages)).Pairwise _
    exact insSort_pairwise pageLe pageLe_total pageLe_trans _
  · show (sortPages (iterSet d0.pages)).filter _ = _
    rw [hp, filter_sortPages]
  · show (sortPages (iterSet d0.pages)).Perm _
    rw [hp]
    exact insSort_perm pageLe _

/-- Counterexample for C7 as stated: the page labels pass through an
unordered Python set before sorting, so the non numeric labels come out in
the set iteration order, not in encounter order. With the labels encountered
as iv then ii and a legitimate set iteration order (the reversal, a
permutation of the collected labels), the summary lists the non numeric
labels as ii then iv, not in their encounter order. -/
theorem pages_encounter_order_cex :
    (get_indexed_documents_ok List.reverse cexPts7).map (fun kv => kv.2.pages) = [["ii", "iv"]] ∧
    encounterPages (some "a.pdf") (cexPts7.map Point.payload) = ["iv", "ii"] ∧
    (List.reverse (encounterPages (some "a.pdf") (cexPts7.map Point.payload))).Perm
      (encounterPages (some "a.pdf") (cexPts7.map Point.payload)) ∧
    ["ii", "iv"].filter (fun s => !pyIsDigit s) ≠
      ["iv", "ii"].filter (fun s => !pyIsDigit s) := by
  decide

/-- Witness for C7: the concrete two label summary satisfies the amended
characterisation under the identity iteration order. -/
theorem pages_sorted_by_key_witness :
    cexSummary7.pages = sortPages (id (encounterPages (some "a.pdf") (cexPts7.map Point.payload))) ∧
    cexSummary7.pages.Pairwise (fun a b => pageLe a b = true) ∧
    cexSummary7.pages.filter (fun s => !pyIsDigit s) =
      (id (encounterPages (some "a.pdf") (cexPts7.map Point.payload))).filter
        (fun s => !pyIsDigit s) ∧
    cexSummary7.pages.Perm (id (encounterPages (some "a.pdf") (cexPts7.map Point.payload))) :=
  pages_sorted_by_key id cexPts7 (some "a.pdf") cexSummary7 (by decide)
